import Mathlib

/-!
Verification of the pythemes theme switcher (src/pythemes/__main__.py).

The Python source is shallowly embedded: strings are `String`/`List Char`,
file contents are `List String` (the result of `Files.readlines`, one entry
per line), fallible code returns `Except PyErr`, and external side effects
(shell commands, wallpaper application, process signals) are recorded as an
`Effect` trace instead of being performed.
-/

namespace pythemes

/-- Errors raised by the Python code (exception classes in the source). -/
inductive PyErr where
  | themeModeError      -- ThemeModeError (App.determine_next_theme)
  | valueError          -- ValueError (ModeAction.get_mode)
  | fileNotFound        -- FileNotFoundError (Wallpaper.randx, Files.readlines)
  | notADirectory       -- NotADirectoryError (Wallpaper.randx)
  | invalidFilePath     -- InvalidFilePathError (Wallpaper.apply)
deriving DecidableEq, Repr

/-! ## The line matcher: `find` (source lines 806-831)

`find` compiles `re.escape` followed by replacing every escaped placeholder with the group pattern and scans
the lines for the first `regex.search` hit.  The compiled pattern is a
sequence of literal characters (everything of the query is escaped) with each
occurrence of the placeholder `{theme}` turned into the capture group
`(\S+)`. -/

/-- One token of the compiled search pattern: a literal character, or the
placeholder group `(\S+)`. -/
inductive Tok where
  | lit (c : Char)
  | group
deriving DecidableEq, Repr

/-- Python whitespace characters recognised by `\s` (ASCII range, which is
all the source's inputs use). `\S` is the complement. -/
def pySpace (c : Char) : Bool :=
  c = ' ' || c = '\t' || c = '\n' || c = '\r' || c = '\x0b' || c = '\x0c'

/-- Length of the maximal run of non-whitespace characters at the head of a
string: the longest text `(\S+)` can take at this position. -/
def nonspaceRunLen : List Char → Nat
  | [] => 0
  | c :: cs => if pySpace c then 0 else nonspaceRunLen cs + 1

/-- Models `leadsWith needle hay` is true when `needle` stands at the head of
`hay` (Python `str.startswith`, used to mirror `str.replace` scanning). -/
def leadsWith : List Char → List Char → Bool
  | [], _ => true
  | _ :: _, [] => false
  | a :: as, b :: bs => a = b && leadsWith as bs

/-- Models `hasSub needle hay`: `needle` occurs somewhere in `hay` (Python
`needle in hay`). -/
def hasSub (needle : List Char) : List Char → Bool
  | [] => leadsWith needle []
  | c :: cs => leadsWith needle (c :: cs) || hasSub needle cs

/-- The placeholder token `{theme}`. -/
def themeTok : List Char := ['{', 't', 'h', 'e', 'm', 'e', '}']

/-- Compile a query into pattern tokens: every occurrence of `{theme}`
becomes the group `(\S+)`; all other characters are literals (the source
escapes the whole query with `re.escape` first, so nothing else is special).
Mirrors the left-to-right non-overlapping scan of `str.replace`. -/
def compileQuery (q : List Char) : List Tok :=
  match q with
  | [] => []
  | c :: cs =>
    if leadsWith themeTok (c :: cs) then Tok.group :: compileQuery (cs.drop 6)
    else Tok.lit c :: compileQuery cs
termination_by q.length
decreasing_by
  · simp only [List.length_drop, List.length_cons]
    omega
  · simp only [List.length_cons]
    omega

/-- Greedy matching of the group `(\S+)`: try to take `k` characters, then
`k - 1`, ... down to `1`, continuing with `rest` after the taken text (the
backtracking order of Python's regex engine for a greedy `+`). -/
def tryG (rest : List Char → Option (List (List Char))) (s : List Char) :
    Nat → Option (List (List Char))
  | 0 => none
  | k + 1 =>
    match rest (s.drop (k + 1)) with
    | some caps => some (s.take (k + 1) :: caps)
    | none => tryG rest s k

/-- Match the token sequence against a prefix of `s` (the match starts
exactly at the head of `s`, as `regex.search` anchored at one position).
On success, returns the captured texts of the groups in order. -/
def matchToks : List Tok → List Char → Option (List (List Char))
  | [] => fun _ => some []
  | Tok.lit c :: ts => fun s =>
      match s with
      | [] => none
      | x :: xs => if x = c then matchToks ts xs else none
  | Tok.group :: ts => fun s => tryG (matchToks ts) s (nonspaceRunLen s)

/-- Models `regex.search`: try the match at every position of the line, leftmost
first (including the position at the end of the line). -/
def searchToks (toks : List Tok) : List Char → Option (List (List Char))
  | [] => matchToks toks []
  | c :: cs =>
    match matchToks toks (c :: cs) with
    | some caps => some caps
    | none => searchToks toks cs

/-- The scan of `for idx, line in enumerate(list_strings)` inside `find`:
return the index of the first line with a search hit together with
`match.group(1)` (the head of the capture list), else `(-1, "")`. -/
def findLoop (toks : List Tok) : List String → Nat → Int × String
  | [], _ => (-1, "")
  | l :: ls, idx =>
    match searchToks toks l.toList with
    | some caps => (Int.ofNat idx, String.mk (caps.headD []))
    | none => findLoop toks ls (idx + 1)

/-- Models `find(query, list_strings)` (source lines 806-831): soft-fails with
`(-1, "")` on an empty line list, an empty query, or a query without the
`{theme}` placeholder; otherwise scans the lines for the first match. -/
def find (query : String) (list_strings : List String) : Int × String :=
  if list_strings.length = 0 then (-1, "")
  else if query = "" then (-1, "")
  else if hasSub themeTok query.toList = false then (-1, "")
  else findLoop (compileQuery query.toList) list_strings 0

/-- Number of `(\S+)` groups in a compiled pattern (used to reason about the
capture list: `match.group(1)` is its head). -/
def countGroups : List Tok → Nat
  | [] => 0
  | Tok.lit _ :: ts => countGroups ts
  | Tok.group :: ts => countGroups ts + 1

/-! ## Python `str.replace` -/

/-- Python `s.replace(old, new)`: replace every non-overlapping occurrence
of `old` in `s` by `new`, scanning left to right.  (Python treats an empty
`old` specially by inserting `new` between all characters; all call sites in
the source pass the text of a `(\S+)` capture, which is never empty, so the
empty case is kept as the identity.) -/
def strReplace (old new : List Char) : List Char → List Char
  | [] => []
  | c :: cs =>
    if old ≠ [] ∧ leadsWith old (c :: cs) then
      new ++ strReplace old new (cs.drop (old.length - 1))
    else c :: strReplace old new cs
termination_by s => s.length
decreasing_by
  · simp only [List.length_drop, List.length_cons]
    omega
  · simp only [List.length_cons]
    omega

/-! ## The App record and its patch engine (source lines 380-534)

An `App` carries the configuration of one application section.  The mutable
run state of the Python object (`_line_idx`, `_next_theme`, `error`) is made
explicit in the results of `has_changes` and `update`; the target file's
content is passed in and returned as a list of lines. -/

/-- The configuration fields of an application record (`App` dataclass).
`cmd` keeps the raw command string of the section; the home-directory
expansion applied by `Files.expand_homepaths` depends on the process
environment and is not inspected by any claim, so it is left as-is. -/
structure App where
  name : String
  file : String
  query : String
  light : String
  dark : String
  cmd : String
  dry_run : Bool
deriving DecidableEq, Repr

/-- Models `App.get_mode`: the configured value for a mode, `none` for an
unrecognised mode (the Python method logs and returns `None`). -/
def App.get_mode (a : App) (mode : String) : Option String :=
  if mode = "light" then some a.light
  else if mode = "dark" then some a.dark
  else none

/-- Models `App.determine_next_theme`: raises `ThemeModeError` when the mode value
is falsy (`None` or the empty string), else returns the matched line with
every occurrence of the current theme replaced by the mode's value
(`str.replace` replaces all occurrences). -/
def App.determine_next_theme (a : App) (fileLines : List String)
    (line_idx : Nat) (current_theme mode : String) : Except PyErr String :=
  match a.get_mode mode with
  | none => .error .themeModeError
  | some tm =>
    if tm = "" then .error .themeModeError
    else
      .ok (String.mk (strReplace current_theme.toList tm.toList
        ((fileLines.getD line_idx "").toList)))

/-- Result of one `has_changes` call: the returned boolean, whether a match
error was recorded on the record, and the stored `_line_idx` /
`_next_theme`. -/
structure HCOut where
  changed : Bool
  errorOccurred : Bool
  line_idx : Int
  next_theme : Option String
deriving DecidableEq, Repr

/-- Models `App.has_changes(mode)` (source lines 465-480): re-read the file, run
`find`; on no match record an error and return `False`; else compute the
candidate replacement line, return `False` when the captured value equals the
mode token, else whether the replacement differs from the original line.
(`fileLines.getD line_idx ""` models `self.lines[self._line_idx]`; `find`
only returns indices of existing lines.) -/
def App.has_changes (a : App) (fileLines : List String) (mode : String) :
    Except PyErr HCOut :=
  match find a.query fileLines with
  | (Int.ofNat idx, current_theme) =>
    match a.determine_next_theme fileLines idx current_theme mode with
    | .error e => .error e
    | .ok nt =>
      if current_theme = mode then
        .ok ⟨false, false, Int.ofNat idx, some nt⟩
      else
        .ok ⟨decide (fileLines.getD idx "" ≠ nt), false, Int.ofNat idx, some nt⟩
  | (Int.negSucc _, _) =>
    -- find returned -1: find_current_theme records the error and
    -- has_changes returns False
    .ok ⟨false, true, -1, none⟩

/-- The message printed by one `update` call. -/
inductive UpdateMsg where
  | noChanges      -- "no changes"
  | errNotUpdated  -- "err not updated" (falsy `_next_theme`)
  | dryRunMsg      -- "dry run"
  | applied        -- "applied"
deriving DecidableEq, Repr

/-- Result of one `update` call: the printed message, whether the file was
written, the file content after the call, and whether a match error was
recorded. -/
structure UpdResult where
  msg : UpdateMsg
  wrote : Bool
  fileLines : List String
  errorOccurred : Bool
deriving DecidableEq, Repr

/-- Models `App.update(mode)` (source lines 412-432): no changes ⇒ report and stop;
falsy `_next_theme` ⇒ report an error and stop; dry-run ⇒ report and stop
without writing; otherwise replace the stored line in the buffer and write
the whole buffer back. -/
def App.update (a : App) (fileLines : List String) (mode : String) :
    Except PyErr UpdResult :=
  match a.has_changes fileLines mode with
  | .error e => .error e
  | .ok hc =>
    if hc.changed = false then
      .ok ⟨.noChanges, false, fileLines, hc.errorOccurred⟩
    else
      match hc.next_theme with
      | none => .ok ⟨.errNotUpdated, false, fileLines, hc.errorOccurred⟩
      | some nt =>
        if nt = "" then .ok ⟨.errNotUpdated, false, fileLines, hc.errorOccurred⟩
        else if a.dry_run then .ok ⟨.dryRunMsg, false, fileLines, hc.errorOccurred⟩
        else .ok ⟨.applied, true, fileLines.set hc.line_idx.toNat nt, hc.errorOccurred⟩

/-! ## External side effects

Shell commands, wallpaper application and process signals are performed by
external collaborators (`SysOps.run`, `SysOps.restart`).  The model records
each invocation as an `Effect`, tagged by the call site. -/

/-- One observable external action of a theme run. -/
inductive Effect where
  | modeActionRun (cmdline : String)  -- SysOps.run from ModeAction.load
  | bareCmdRun (cmdline : String)     -- SysOps.run from Cmd.run
  | wallpaperRun (cmdline : String)   -- SysOps.run from Wallpaper.apply
  | signal (program : String)         -- SysOps.restart signalling a program
deriving DecidableEq, Repr

/-- A mode-keyed action (`ModeAction` dataclass, source lines 199-253). -/
structure ModeAction where
  name : String
  light : String
  dark : String
  cmd : String
  dry_run : Bool
deriving DecidableEq, Repr

/-- Models `ModeAction.get_mode`: raises `ValueError` on an unknown mode. -/
def ModeAction.get_mode (m : ModeAction) (mode : String) : Except PyErr String :=
  if mode = "light" then .ok m.light
  else if mode = "dark" then .ok m.dark
  else .error .valueError

/-- Models `ModeAction.load`: run `cmd <mode value>` (logged only in dry-run). -/
def ModeAction.load (m : ModeAction) (mode : String) :
    Except PyErr (List Effect) :=
  match m.get_mode mode with
  | .error e => .error e
  | .ok v =>
    if m.dry_run then .ok []
    else .ok [.modeActionRun (m.cmd ++ " " ++ v)]

/-- A bare command (`Cmd` dataclass, source lines 256-287). -/
structure Cmd where
  name : String
  cmd : String
deriving DecidableEq, Repr

/-- Models `Cmd.run`: nothing when the command string is empty; logged only when the
global `SysOps.dry_run` flag is set; else executed. -/
def Cmd.run (c : Cmd) (sysDryRun : Bool) : List Effect :=
  if c.cmd = "" then []
  else if sysDryRun then []
  else [.bareCmdRun c.cmd]

/-- Models `SysOps.restart`: look up the program's pids and send `SIGUSR1` (skipped
in dry-run).  The pid lookup is an external collaborator and is modelled as
succeeding; the signal is recorded with the program's name. -/
def SysOps.restart (program : String) (sysDryRun : Bool) : List Effect :=
  if sysDryRun then []
  else [.signal program]

/-! ## The wallpaper record (source lines 543-653) -/

/-- Filesystem facts consumed by the wallpaper step: whether the `random`
path exists and is a file, the files `glob` with pattern `*.*` yields there, and an
`is_file` oracle for candidate wallpaper paths. -/
structure WallInfo where
  randomExists : Bool
  randomIsFile : Bool
  randomFiles : List String
  isFile : String → Bool

/-- The wallpaper record (`Wallpaper` dataclass).  Paths are kept as the
configured strings. -/
structure Wallpaper where
  dark : String
  light : String
  random : String
  cmd : String
  dry_run : Bool
  errorOccurred : Bool
deriving Repr

/-- Models `Wallpaper.new`: the record is marked invalid when any of the four
fields is empty. -/
def Wallpaper.new (dark light random cmd : String) (dry_run : Bool) : Wallpaper :=
  ⟨dark, light, random, cmd, dry_run,
    dark = "" || light = "" || random = "" || cmd = ""⟩

/-- Models `Wallpaper.randx`: raises when the `random` path is missing, is a file,
or holds no files; else picks a random file (modelled as the first file of
the glob — no claim depends on which file is chosen). -/
def Wallpaper.randx (_w : Wallpaper) (fs : WallInfo) : Except PyErr String :=
  if fs.randomExists = false then .error .fileNotFound
  else if fs.randomIsFile then .error .notADirectory
  else
    match fs.randomFiles with
    | [] => .error .fileNotFound
    | f :: _ => .ok f

/-- Models `Wallpaper.get`: the path for the mode, or the fallback for an
unrecognised mode. -/
def Wallpaper.get (w : Wallpaper) (mode : String) (fallback : String) : String :=
  if mode = "light" then w.light
  else if mode = "dark" then w.dark
  else fallback

/-- Models `Wallpaper.apply`: report and skip when the record is invalid; raise
`InvalidFilePathError` when the path is not a file; do nothing in dry-run;
else run `cmd <path>`. -/
def Wallpaper.apply (w : Wallpaper) (fs : WallInfo) (path : String) :
    Except PyErr (List Effect) :=
  if w.errorOccurred then .ok []
  else if fs.isFile path = false then .error .invalidFilePath
  else if w.dry_run then .ok []
  else .ok [.wallpaperRun (w.cmd ++ " " ++ path)]

/-- Models `Wallpaper.set(mode)`: `self.apply(self.get(mode, self.randx()))` — the
fallback argument `self.randx()` is evaluated eagerly, before `apply` checks
the record's error flag. -/
def Wallpaper.set (w : Wallpaper) (fs : WallInfo) (mode : String) :
    Except PyErr (List Effect) :=
  match w.randx fs with
  | .error e => .error e
  | .ok fb => w.apply fs (w.get mode fb)

/-! ## The theme run (source lines 1043-1081)

`process_theme` walks the theme's applications in order, counting updates,
then `handle_theme_updates` runs the wallpaper step, checks the update gate
and triggers mode-keyed actions, bare commands and restarts. -/

/-- One application as the run sees it: the record, the `error.occurred`
flag left by `parse_apps`/`validate`, and its target file's lines. -/
structure AppEntry where
  app : App
  errorOccurred : Bool
  fileLines : List String
deriving DecidableEq, Repr

/-- Per-application outcome of the loop in `process_theme`. -/
structure AppOut where
  errorAfter : Bool
  wrote : Bool
  newLines : List String
deriving DecidableEq, Repr

/-- Models `process_app` (source lines 937-947): skip an application whose record
already carries an error; otherwise run `update`. -/
def process_app (e : AppEntry) (mode : String) : Except PyErr AppOut :=
  if e.errorOccurred then .ok ⟨true, false, e.fileLines⟩
  else
    match e.app.update e.fileLines mode with
    | .error err => .error err
    | .ok r => .ok ⟨r.errorOccurred, r.wrote, r.fileLines⟩

/-- The per-application loop of `process_theme`: after each `process_app`,
an application without an error registers its command with the commander and
increments `theme.updates`. -/
def run_apps (mode : String) : List AppEntry →
    Except PyErr (Nat × List AppOut × List Cmd)
  | [] => .ok (0, [], [])
  | e :: es =>
    match process_app e mode with
    | .error err => .error err
    | .ok o =>
      match run_apps mode es with
      | .error err => .error err
      | .ok (u, outs, cs) =>
        if o.errorAfter then .ok (u, o :: outs, cs)
        else .ok (u + 1, o :: outs, ⟨e.app.name, e.app.cmd⟩ :: cs)

/-- The inputs of one theme run: the parsed applications in iteration order,
the theme's mode-keyed actions, the optional wallpaper record with its
filesystem facts, the global restart list (`PROGRAMS_RESTART`) and the
global `SysOps.dry_run` flag. -/
structure RunEnv where
  entries : List AppEntry
  cmds : List ModeAction
  wallpaper : Option Wallpaper
  wallInfo : WallInfo
  restart : List String
  sysDryRun : Bool

/-- Run every mode-keyed action in order (`for cmd in theme.cmds`). -/
def loadAll (mode : String) : List ModeAction → Except PyErr (List Effect)
  | [] => .ok []
  | m :: ms =>
    match m.load mode with
    | .error err => .error err
    | .ok e =>
      match loadAll mode ms with
      | .error err => .error err
      | .ok es => .ok (e ++ es)

/-- The outcome of a completed theme run: the update and error counts of the
summary, the external effects in order, and the per-application outcomes. -/
structure RunResult where
  updates : Nat
  errors : Nat
  effects : List Effect
  outs : List AppOut
deriving DecidableEq, Repr

/-- Models `handle_theme_updates` (source lines 1058-1081): the wallpaper step runs
first (when a wallpaper record exists); then, if no application was updated,
the run stops; otherwise mode-keyed actions, registered bare commands and the
restart list are triggered in that order. -/
def handle_theme_updates (env : RunEnv) (updates : Nat) (cmds : List Cmd)
    (mode : String) : Except PyErr (List Effect) :=
  match
    match env.wallpaper with
    | none => Except.ok ([] : List Effect)
    | some w => w.set env.wallInfo mode
  with
  | .error err => .error err
  | .ok wEff =>
    if updates = 0 then .ok wEff
    else
      match loadAll mode env.cmds with
      | .error err => .error err
      | .ok mEff =>
        let bEff := (cmds.map (fun c => c.run env.sysDryRun)).flatten
        let rEff := (env.restart.map (fun p => SysOps.restart p env.sysDryRun)).flatten
        .ok (wEff ++ mEff ++ bEff ++ rEff)

/-- Number of applications whose record carries an error after the run
(`Theme.errors`). -/
def countErrors (outs : List AppOut) : Nat :=
  (outs.filter (fun o => o.errorAfter)).length

/-- Models `process_theme` (source lines 1043-1055) followed by
`handle_theme_updates`: one full theme run. -/
def process_theme (env : RunEnv) (mode : String) : Except PyErr RunResult :=
  match run_apps mode env.entries with
  | .error err => .error err
  | .ok (u, outs, cs) =>
    match handle_theme_updates env u cs mode with
    | .error err => .error err
    | .ok effs => .ok ⟨u, countErrors outs, effs, outs⟩

/-! ## Configuration parsing (source lines 685-712)

`INIFile.parse` removes the `restart` and `wallpaper` sections into their own
structures; `parse_raw_program` gives every remaining section all five keys
(`file`, `query`, `light`, `dark`, `cmd`) with the empty string as fallback.  The loop of
`Theme.parse_apps` then dispatches each remaining section. -/

/-- A section as produced by `parse_raw_program`: all five keys present,
missing ones defaulted to the empty string. -/
structure RawSection where
  file : String
  query : String
  light : String
  dark : String
  cmd : String
deriving DecidableEq, Repr

/-- Models `ModeAction.new` for a section. -/
def ModeAction.new (name : String) (v : RawSection) (dry_run : Bool) : ModeAction :=
  ⟨name, v.light, v.dark, v.cmd, dry_run⟩

/-- Models `App.new` for a section (the `cmd` string kept unexpanded, see `App`). -/
def App.new (name : String) (v : RawSection) (dry_run : Bool) : App :=
  ⟨name, v.file, v.query, v.light, v.dark, v.cmd, dry_run⟩

/-- The applications and mode-keyed actions accumulated by
`Theme.parse_apps`. -/
structure ParsedApps where
  apps : List (String × App)
  cmds : List ModeAction
deriving DecidableEq, Repr

/-- Models `Theme.register_app`: adds the application unless one of that name is
already registered. -/
def register_app (ps : ParsedApps) (name : String) (a : App) : ParsedApps :=
  if (ps.apps.map Prod.fst).contains name then ps
  else { ps with apps := ps.apps ++ [(name, a)] }

/-- One iteration of the loop in `Theme.parse_apps`: a section with empty
`file` and `query` (other than `wallpaper`) becomes a mode-keyed action; a
section with an empty `file` is skipped; anything else becomes an
application. -/
def parse_step (dry_run : Bool) (ps : ParsedApps) (nv : String × RawSection) :
    ParsedApps :=
  if nv.2.file = "" ∧ nv.2.query = "" ∧ nv.1 ≠ "wallpaper" then
    { ps with cmds := ps.cmds ++ [ModeAction.new nv.1 nv.2 dry_run] }
  else if nv.2.file = "" then ps
  else register_app ps nv.1 (App.new nv.1 nv.2 dry_run)

/-- The loop of `Theme.parse_apps` over the sections left after the
`restart` and `wallpaper` sections were removed, in document order
(configparser keeps sections in a dict, so section names are unique). -/
def parse_sections (sections : List (String × RawSection)) (dry_run : Bool) :
    ParsedApps :=
  sections.foldl (parse_step dry_run) ⟨[], []⟩

/-! ## Differ -/

/-- Modelled from the spec: the `Differ` component is not present under
`src/` (only `src/tests/test_diff.py` imports it from `pythemes.__main__`).
Spec §4.3: `changes(original, updated)` produces a line-level diff; identical
inputs yield the original text unchanged (no diff markers); differing inputs
yield removed content and added content, prefixed and joined by a newline —
rendered as in the expectations of `test_diff.py`. -/
def Differ.changes (original updated : String) : String :=
  if original = updated then original
  else "- " ++ original ++ "\n+ " ++ updated

/-! # Lemmas: the scan of `find` -/

lemma findLoop_none (toks : List Tok) (ls : List String) (i : Nat)
    (h : ∀ l ∈ ls, searchToks toks l.toList = none) :
    findLoop toks ls i = (-1, "") := by
  induction ls generalizing i with
  | nil => rfl
  | cons l ls ih =>
    have hl : searchToks toks l.toList = none := h l (by simp)
    simp only [findLoop, hl]
    exact ih (i + 1) (fun x hx => h x (by simp [hx]))

lemma findLoop_found (toks : List Tok) (ls : List String) (i k : Nat)
    (hk : k < ls.length) (caps : List (List Char))
    (hc : searchToks toks (ls.get ⟨k, hk⟩).toList = some caps)
    (hprev : ∀ j, ∀ hj : j < ls.length, j < k →
      searchToks toks (ls.get ⟨j, hj⟩).toList = none) :
    findLoop toks ls i = (Int.ofNat (i + k), String.mk (caps.headD [])) := by
  induction ls generalizing i k with
  | nil => exact absurd hk (by simp)
  | cons l ls ih =>
    cases k with
    | zero =>
      have h0 : searchToks toks l.toList = some caps := hc
      simp only [findLoop, h0, Nat.add_zero]
    | succ k =>
      have h0 : searchToks toks l.toList = none :=
        hprev 0 (by simp) (Nat.succ_pos k)
      simp only [findLoop, h0]
      have hk' : k < ls.length := by simpa using hk
      have hc' : searchToks toks (ls.get ⟨k, hk'⟩).toList = some caps := hc
      have hrec := ih (i + 1) k hk' hc'
        (fun j hj hjk => hprev (j + 1) (by simpa using hj) (by omega))
      rw [hrec]
      congr 2
      omega

lemma findLoop_inv (toks : List Tok) (ls : List String) (i : Nat)
    (idx : Int) (v : String)
    (h : findLoop toks ls i = (idx, v)) (hidx : 0 ≤ idx) :
    ∃ k, ∃ hk : k < ls.length, ∃ caps : List (List Char),
      searchToks toks (ls.get ⟨k, hk⟩).toList = some caps ∧
      v = String.mk (caps.headD []) ∧ idx = Int.ofNat (i + k) ∧
      ∀ j, ∀ hj : j < ls.length, j < k →
        searchToks toks (ls.get ⟨j, hj⟩).toList = none := by
  induction ls generalizing i with
  | nil =>
    simp only [findLoop] at h
    cases h
    exact absurd hidx (by decide)
  | cons l ls ih =>
    cases hs : searchToks toks l.toList with
    | some caps =>
      simp only [findLoop, hs] at h
      cases h
      refine ⟨0, by simp, caps, hs, rfl, by simp, ?_⟩
      intro j hj hj0
      omega
    | none =>
      simp only [findLoop, hs] at h
      obtain ⟨k, hk, caps, h1, h2, h3, h4⟩ := ih (i + 1) h
      refine ⟨k + 1, by simpa using hk, caps, h1, h2,
        by rw [h3]; congr 1; omega, ?_⟩
      intro j hj hjk
      cases j with
      | zero => exact hs
      | succ j => exact h4 j (by simpa using hj) (by omega)

/-! # Claim C3 -/

/-- C3: `find` returns `(-1, "")` when the line list is empty, the query is
empty, or the query lacks the `{theme}` placeholder; it returns `(-1, "")`
when no line matches the compiled query; and when some line matches it
returns the lowest index of any matching line together with the text
captured at the placeholder (the first capture group) of that line. -/
theorem C3_find_contract (query : String) (lines : List String) :
    ((lines = [] ∨ query = "" ∨ hasSub themeTok query.toList = false) →
      find query lines = (-1, "")) ∧
    ((∀ l ∈ lines, searchToks (compileQuery query.toList) l.toList = none) →
      find query lines = (-1, "")) ∧
    (query ≠ "" → hasSub themeTok query.toList = true →
      ∀ i : Nat, ∀ hi : i < lines.length, ∀ caps : List (List Char),
        searchToks (compileQuery query.toList) (lines.get ⟨i, hi⟩).toList
          = some caps →
        (∀ j : Nat, ∀ hj : j < lines.length, j < i →
          searchToks (compileQuery query.toList) (lines.get ⟨j, hj⟩).toList
            = none) →
        find query lines = (Int.ofNat i, String.mk (caps.headD []))) := by
  refine ⟨?_, ?_, ?_⟩
  · rintro (h | h | h)
    · subst h
      rfl
    · by_cases hl : lines.length = 0
      · rw [find, if_pos hl]
      · rw [find, if_neg hl, if_pos h]
    · by_cases hl : lines.length = 0
      · rw [find, if_pos hl]
      · by_cases hq : query = ""
        · rw [find, if_neg hl, if_pos hq]
        · rw [find, if_neg hl, if_neg hq, if_pos h]
  · intro h
    by_cases hl : lines.length = 0
    · rw [find, if_pos hl]
    · by_cases hq : query = ""
      · rw [find, if_neg hl, if_pos hq]
      · by_cases hs : hasSub themeTok query.toList = false
        · rw [find, if_neg hl, if_neg hq, if_pos hs]
        · rw [find, if_neg hl, if_neg hq, if_neg hs]
          exact findLoop_none _ _ _ h
  · intro hq hs i hi caps hc hprev
    have hl : ¬ lines.length = 0 := by omega
    rw [find, if_neg hl, if_neg hq, if_neg (by rw [hs]; exact fun hx => by cases hx)]
    have := findLoop_found (compileQuery query.toList) lines 0 i hi caps hc hprev
    simpa using this

/-- Witness for C3: a concrete two-line search where the second line is the
first match. -/
theorem C3_find_contract_witness :
    find "theme-{theme}-config" ["random", "theme-dark-config"]
      = (1, "dark") := by
  have h := (C3_find_contract "theme-{theme}-config"
    ["random", "theme-dark-config"]).2.2
  have h2 := h (by decide) (by simp +decide [hasSub, leadsWith, themeTok])
    1 (by decide) [['d', 'a', 'r', 'k']]
    (by simp +decide [compileQuery, themeTok, leadsWith, searchToks, matchToks,
      tryG, nonspaceRunLen, pySpace])
    (by
      intro j hj hjk
      have : j = 0 := by omega
      subst this
      simp +decide [compileQuery, themeTok, leadsWith, searchToks, matchToks,
        tryG, nonspaceRunLen, pySpace])
  simpa using h2

/-! # Lemmas: captures of the matcher -/

lemma tryG_sound (rest : List Char → Option (List (List Char)))
    (s : List Char) (k : Nat) (caps : List (List Char))
    (h : tryG rest s k = some caps) :
    ∃ j, j < k ∧ ∃ caps', rest (s.drop (j + 1)) = some caps' ∧
      caps = s.take (j + 1) :: caps' := by
  induction k with
  | zero => cases h
  | succ k ih =>
    cases hr : rest (s.drop (k + 1)) with
    | some caps' =>
      have he : tryG rest s (k + 1) = some (s.take (k + 1) :: caps') := by
        simp only [tryG, hr]
      rw [he] at h
      exact ⟨k, by omega, caps', hr, (Option.some.inj h).symm⟩
    | none =>
      have he : tryG rest s (k + 1) = tryG rest s k := by
        simp only [tryG, hr]
      rw [he] at h
      obtain ⟨j, hj, caps', h1, h2⟩ := ih h
      exact ⟨j, by omega, caps', h1, h2⟩

lemma matchToks_length (toks : List Tok) :
    ∀ s caps, matchToks toks s = some caps → caps.length = countGroups toks := by
  induction toks with
  | nil =>
    intro s caps h
    cases h
    rfl
  | cons t ts ih =>
    cases t with
    | lit c =>
      intro s caps h
      cases s with
      | nil => cases h
      | cons x xs =>
        simp only [matchToks] at h
        by_cases hx : x = c
        · rw [if_pos hx] at h
          simpa [countGroups] using ih xs caps h
        · rw [if_neg hx] at h
          cases h
    | group =>
      intro s caps h
      simp only [matchToks] at h
      obtain ⟨j, hj, caps', h1, h2⟩ := tryG_sound _ _ _ _ h
      subst h2
      simp [countGroups, ih _ _ h1]

lemma nonspaceRunLen_nil : nonspaceRunLen [] = 0 := rfl

lemma matchToks_caps_ne_nil (toks : List Tok) :
    ∀ s caps, matchToks toks s = some caps → ∀ c ∈ caps, c ≠ [] := by
  induction toks with
  | nil =>
    intro s caps h
    cases h
    intro c hc
    cases hc
  | cons t ts ih =>
    cases t with
    | lit c =>
      intro s caps h
      cases s with
      | nil => cases h
      | cons x xs =>
        simp only [matchToks] at h
        by_cases hx : x = c
        · rw [if_pos hx] at h
          exact ih xs caps h
        · rw [if_neg hx] at h
          cases h
    | group =>
      intro s caps h
      simp only [matchToks] at h
      obtain ⟨j, hj, caps', h1, h2⟩ := tryG_sound _ _ _ _ h
      subst h2
      intro c hc
      rcases List.mem_cons.mp hc with hc | hc
      · subst hc
        have hs : s ≠ [] := by
          intro hnil
          subst hnil
          rw [nonspaceRunLen_nil] at hj
          omega
        cases s with
        | nil => exact absurd rfl hs
        | cons y ys => simp [List.take_succ_cons]
      · exact ih _ _ h1 c hc

lemma matchToks_nil_of_group (toks : List Tok)
    (h : 1 ≤ countGroups toks) : matchToks toks [] = none := by
  induction toks with
  | nil => simp [countGroups] at h
  | cons t ts ih =>
    cases t with
    | lit c => rfl
    | group => rfl

lemma searchToks_inv (toks : List Tok) :
    ∀ l caps, searchToks toks l = some caps →
      ∃ s, matchToks toks s = some caps := by
  intro l
  induction l with
  | nil =>
    intro caps h
    exact ⟨[], h⟩
  | cons c cs ih =>
    intro caps h
    simp only [searchToks] at h
    cases hm : matchToks toks (c :: cs) with
    | some caps' =>
      rw [hm] at h
      exact ⟨c :: cs, hm.trans (by rw [Option.some.inj h])⟩
    | none =>
      rw [hm] at h
      exact ih caps h

lemma searchToks_nil_none (toks : List Tok) (h : 1 ≤ countGroups toks) :
    searchToks toks [] = none := matchToks_nil_of_group toks h

lemma countGroups_compileQuery : ∀ q : List Char,
    hasSub themeTok q = true → 1 ≤ countGroups (compileQuery q) := by
  intro q
  induction q using compileQuery.induct with
  | case1 => intro h; simp [hasSub, leadsWith, themeTok] at h
  | case2 c cs hlead ih =>
    intro h
    simp only [compileQuery, if_pos hlead]
    simp [countGroups]
  | case3 c cs hlead ih =>
    intro h
    simp only [compileQuery, if_neg hlead]
    simp only [countGroups]
    apply ih
    rw [hasSub] at h
    simp only [Bool.or_eq_true] at h
    rcases h with h1 | h1
    · exact absurd h1 hlead
    · exact h1

/-! # Lemmas: `strReplace` -/

lemma leadsWith_decomp : ∀ p s : List Char, leadsWith p s = true →
    s = p ++ s.drop p.length := by
  intro p
  induction p with
  | nil => intro s _; simp
  | cons a as ih =>
    intro s h
    cases s with
    | nil => cases h
    | cons b bs =>
      simp only [leadsWith, Bool.and_eq_true, decide_eq_true_eq] at h
      obtain ⟨h1, h2⟩ := h
      have := ih bs h2
      simp [h1.symm, List.drop_succ_cons]
      exact this

lemma strReplace_self : ∀ (old s : List Char), strReplace old old s = s := by
  intro old s
  induction s using strReplace.induct old old with
  | case1 => simp only [strReplace]
  | case2 c cs hc ih =>
    obtain ⟨hne, hlead⟩ := hc
    rw [strReplace, if_pos (⟨hne, hlead⟩ : old ≠ [] ∧ leadsWith old (c :: cs) = true)]
    rw [ih]
    have hd := leadsWith_decomp old (c :: cs) hlead
    cases hold : old with
    | nil => exact absurd hold hne
    | cons o os =>
      rw [hold] at hd
      conv_rhs => rw [hd]
      simp [List.drop_succ_cons]
  | case3 c cs hc ih =>
    rw [strReplace, if_neg hc, ih]

lemma strReplace_ne_nil (old new s : List Char) (hs : s ≠ [])
    (hn : new ≠ []) : strReplace old new s ≠ [] := by
  cases s with
  | nil => exact absurd rfl hs
  | cons c cs =>
    rw [strReplace]
    by_cases h : old ≠ [] ∧ leadsWith old (c :: cs)
    · rw [if_pos h]
      simp [hn]
    · rw [if_neg h]
      simp

/-! # Lemmas: successful `find` results -/

lemma find_ok_inv (query : String) (lines : List String) (idx : Nat)
    (v : String) (h : find query lines = (Int.ofNat idx, v)) :
    lines.length ≠ 0 ∧ query ≠ "" ∧ hasSub themeTok query.toList = true := by
  have hl : lines.length ≠ 0 := by
    intro hc
    rw [find, if_pos hc] at h
    have hfst : (-1 : Int) = Int.ofNat idx := congrArg Prod.fst h
    cases hfst
  have hq : query ≠ "" := by
    intro hc
    rw [find, if_neg hl, if_pos hc] at h
    have hfst : (-1 : Int) = Int.ofNat idx := congrArg Prod.fst h
    cases hfst
  refine ⟨hl, hq, ?_⟩
  cases hb : hasSub themeTok query.toList with
  | false =>
    rw [find, if_neg hl, if_neg hq, if_pos hb] at h
    have hfst : (-1 : Int) = Int.ofNat idx := congrArg Prod.fst h
    cases hfst
  | true => rfl

lemma find_found (query : String) (lines : List String) (idx : Nat)
    (v : String) (h : find query lines = (Int.ofNat idx, v)) :
    ∃ hk : idx < lines.length,
      v ≠ "" ∧ (lines.get ⟨idx, hk⟩).toList ≠ [] ∧
      lines.getD idx "" = lines.get ⟨idx, hk⟩ := by
  obtain ⟨hl, hq, hs⟩ := find_ok_inv query lines idx v h
  rw [find, if_neg hl, if_neg hq, if_neg (by rw [hs]; exact fun hx => by cases hx)] at h
  obtain ⟨k, hk, caps, h1, h2, h3, _⟩ :=
    findLoop_inv _ _ _ _ _ h (by exact Int.ofNat_nonneg idx)
  have hki : k = idx := by
    have h4 := Int.ofNat.inj h3
    omega
  subst hki
  have hg : 1 ≤ countGroups (compileQuery query.toList) :=
    countGroups_compileQuery _ hs
  obtain ⟨s, hms⟩ := searchToks_inv _ _ _ h1
  have hlen := matchToks_length _ _ _ hms
  have hnn := matchToks_caps_ne_nil _ _ _ hms
  have hcne : caps ≠ [] := by
    intro hcnil
    subst hcnil
    simp only [List.length_nil] at hlen
    omega
  have hvne : v ≠ "" := by
    cases caps with
    | nil => exact absurd rfl hcne
    | cons c0 cr =>
      have hc0 : c0 ≠ [] := hnn c0 (by simp)
      subst h2
      simp only [List.headD_cons]
      intro hcon
      exact hc0 (congrArg String.data hcon)
  have hlne : (lines.get ⟨k, hk⟩).toList ≠ [] := by
    intro hnil
    rw [hnil] at h1
    rw [searchToks_nil_none _ hg] at h1
    cases h1
  exact ⟨hk, hvne, hlne, List.getD_eq_getElem lines "" hk⟩

/-! # Lemmas: `has_changes` and `update` -/

lemma toList_ne_nil (s : String) (h : s ≠ "") : s.toList ≠ [] := by
  intro hc
  apply h
  cases s with
  | mk d =>
    have hd : d = [] := hc
    subst hd
    rfl

lemma mk_ne_empty (x : List Char) (h : x ≠ []) : String.mk x ≠ "" := by
  intro hc
  exact h (congrArg String.data hc)

/-- When the captured value equals the mode's configured value, the
replacement line is the original line and `has_changes` returns `False`. -/
lemma hc_of_capture_eq_target (a : App) (fl : List String)
    (mode : String) (idx : Nat) (v : String)
    (hfind : find a.query fl = (Int.ofNat idx, v))
    (hv : a.get_mode mode = some v) :
    a.has_changes fl mode = .ok ⟨false, false, Int.ofNat idx,
      some (fl.getD idx "")⟩ := by
  obtain ⟨hk, hvne, hlne, hgd⟩ := find_found _ _ _ _ hfind
  have hdet : a.determine_next_theme fl idx v mode = .ok (fl.getD idx "") := by
    simp only [App.determine_next_theme, hv, if_neg hvne, strReplace_self]
    rfl
  simp only [App.has_changes, hfind, hdet]
  by_cases hvm : v = mode
  · rw [if_pos hvm]
  · rw [if_neg hvm]
    simp

/-- When the captured value is the literal mode token (and the mode's
configured value is nonempty, so no exception fires), `has_changes` returns
`False` at the `current_theme == mode` check. -/
lemma hc_of_capture_eq_mode (a : App) (fl : List String)
    (mode : String) (idx : Nat) (tm : String)
    (hfind : find a.query fl = (Int.ofNat idx, mode))
    (htm : a.get_mode mode = some tm) (htm' : tm ≠ "") :
    ∃ nt, a.has_changes fl mode = .ok ⟨false, false, Int.ofNat idx, some nt⟩ := by
  have hdet : a.determine_next_theme fl idx mode mode
      = .ok (String.mk (strReplace mode.toList tm.toList
        ((fl.getD idx "").toList))) := by
    simp only [App.determine_next_theme, htm, if_neg htm']
  refine ⟨String.mk (strReplace mode.toList tm.toList
    ((fl.getD idx "").toList)), ?_⟩
  simp only [App.has_changes, hfind, hdet, if_pos rfl]
  simp

lemma determine_ok_inv (a : App) (fl : List String) (idx : Nat)
    (v mode nt : String)
    (h : a.determine_next_theme fl idx v mode = .ok nt) :
    ∃ tm, a.get_mode mode = some tm ∧ tm ≠ "" ∧
      nt = String.mk (strReplace v.toList tm.toList
        ((fl.getD idx "").toList)) := by
  cases hg : a.get_mode mode with
  | none =>
    simp only [App.determine_next_theme, hg] at h
    cases h
  | some tm =>
    simp only [App.determine_next_theme, hg] at h
    by_cases htm : tm = ""
    · rw [if_pos htm] at h
      cases h
    · rw [if_neg htm] at h
      exact ⟨tm, rfl, htm, (Except.ok.inj h).symm⟩

/-- Inversion of a `has_changes` call that returned `True`: the file
matched, the replacement was computed from a nonempty mode value, differs
from the original line, and is itself nonempty. -/
lemma has_changes_changed_inv (a : App) (fl : List String) (mode : String)
    (hc : HCOut) (h : a.has_changes fl mode = .ok hc)
    (hch : hc.changed = true) :
    ∃ idx v nt, find a.query fl = (Int.ofNat idx, v) ∧
      a.determine_next_theme fl idx v mode = .ok nt ∧
      hc = ⟨true, false, Int.ofNat idx, some nt⟩ ∧
      nt ≠ "" ∧ v ≠ mode ∧ fl.getD idx "" ≠ nt := by
  rcases hf : find a.query fl with ⟨i, v⟩
  cases i with
  | negSucc n =>
    simp only [App.has_changes, hf] at h
    have := (Except.ok.inj h).symm
    rw [this] at hch
    cases hch
  | ofNat idx =>
    simp only [App.has_changes, hf] at h
    cases hd : a.determine_next_theme fl idx v mode with
    | error e =>
      simp only [hd] at h
      cases h
    | ok nt =>
      simp only [hd] at h
      by_cases hvm : v = mode
      · rw [if_pos hvm] at h
        have := (Except.ok.inj h).symm
        rw [this] at hch
        cases hch
      · rw [if_neg hvm] at h
        have hceq := (Except.ok.inj h).symm
        have hdiff : fl.getD idx "" ≠ nt := by
          intro hcon
          rw [hceq] at hch
          simp only [decide_eq_true_eq] at hch
          exact hch hcon
        obtain ⟨tm, htm, htm', hnteq⟩ := determine_ok_inv _ _ _ _ _ _ hd
        obtain ⟨hk, hvne, hlne, hgd⟩ := find_found _ _ _ _ hf
        have hnt : nt ≠ "" := by
          rw [hnteq]
          apply mk_ne_empty
          apply strReplace_ne_nil
          · rw [hgd]
            exact hlne
          · exact toList_ne_nil tm htm'
        refine ⟨idx, v, nt, rfl, hd, ?_, hnt, hvm, hdiff⟩
        rw [hceq]
        congr 1
        rw [hceq] at hch
        simpa using hch

/-- Inversion of an `update` call that wrote the file: dry-run was off,
`has_changes` returned `True`, and the written content is the buffer with
the stored line replaced. -/
lemma update_wrote_inv (a : App) (fl : List String) (mode : String)
    (r : UpdResult) (h : a.update fl mode = .ok r) (hw : r.wrote = true) :
    ∃ hc : HCOut, a.has_changes fl mode = .ok hc ∧ hc.changed = true ∧
      a.dry_run = false ∧
      ∃ nt, hc.next_theme = some nt ∧ nt ≠ "" ∧
        r = ⟨.applied, true, fl.set hc.line_idx.toNat nt, hc.errorOccurred⟩ := by
  cases hhc : a.has_changes fl mode with
  | error e =>
    simp only [App.update, hhc] at h
    cases h
  | ok hc =>
    simp only [App.update, hhc] at h
    by_cases hch : hc.changed = false
    · rw [if_pos hch] at h
      have := (Except.ok.inj h).symm
      rw [this] at hw
      cases hw
    · rw [if_neg hch] at h
      cases hnt : hc.next_theme with
      | none =>
        simp only [hnt] at h
        have := (Except.ok.inj h).symm
        rw [this] at hw
        cases hw
      | some nt =>
        simp only [hnt] at h
        by_cases hne : nt = ""
        · rw [if_pos hne] at h
          have := (Except.ok.inj h).symm
          rw [this] at hw
          cases hw
        · rw [if_neg hne] at h
          by_cases hdr : a.dry_run
          · rw [if_pos hdr] at h
            have := (Except.ok.inj h).symm
            rw [this] at hw
            cases hw
          · rw [if_neg hdr] at h
            refine ⟨hc, rfl, by simpa using hch, by simpa using hdr,
              nt, hnt, hne, (Except.ok.inj h).symm⟩

/-! # Claim C5 -/

/-- C5: when the value captured from the matched line already equals the
configured value for the requested mode, `has_changes` returns `False`
(with no error recorded), whatever the surrounding text of the matched
line: the replacement line is identical to the original. -/
theorem C5_current_equals_target (a : App) (fl : List String)
    (mode : String) (idx : Nat) (v : String)
    (hfind : find a.query fl = (Int.ofNat idx, v))
    (hv : a.get_mode mode = some v) :
    a.has_changes fl mode = .ok ⟨false, false, Int.ofNat idx,
      some (fl.getD idx "")⟩ :=
  hc_of_capture_eq_target a fl mode idx v hfind hv

/-- Witness for C5: the captured value `gruvbox-light` equals the light
value, inside arbitrary surrounding text, so `has_changes` returns
`False`. -/
theorem C5_current_equals_target_witness :
    App.has_changes ⟨"w", "f", "q {theme}", "gruvbox-light", "gruvbox-dark",
        "", true⟩
      ["pre q gruvbox-light post\n"] "light"
      = .ok ⟨false, false, Int.ofNat 0, some "pre q gruvbox-light post\n"⟩ := by
  have h := C5_current_equals_target
    ⟨"w", "f", "q {theme}", "gruvbox-light", "gruvbox-dark", "", true⟩
    ["pre q gruvbox-light post\n"] "light" 0 "gruvbox-light"
    (by simp +decide [find, findLoop, compileQuery, themeTok, leadsWith,
      hasSub, searchToks, matchToks, tryG, nonspaceRunLen, pySpace])
    (by rfl)
  simpa using h

/-! # Claim C6 -/

/-- C6: in dry-run mode, an `update` with a genuine pending change
(`has_changes` returned `True`) reports a dry run and performs no write:
the file content coming out of the call is exactly the content that went
in. -/
theorem C6_dry_run_no_write (a : App) (fl : List String) (mode : String)
    (hc : HCOut) (hd : a.dry_run = true)
    (hhc : a.has_changes fl mode = .ok hc) (hch : hc.changed = true) :
    a.update fl mode = .ok ⟨.dryRunMsg, false, fl, hc.errorOccurred⟩ := by
  obtain ⟨idx, v, nt, hf, hdet, hceq, hnt, hvm, hdiff⟩ :=
    has_changes_changed_inv a fl mode hc hhc hch
  subst hceq
  simp [App.update, hhc, hnt, hd]

/-- Witness for C6: a dry-run application with a genuine pending change
(dark value present, light requested) leaves the file lines untouched. -/
theorem C6_dry_run_no_write_witness :
    App.update ⟨"t", "env.sh", "export THEME={theme}", "solarized-light",
        "solarized-dark", "", true⟩
      ["export THEME=solarized-dark\n"] "light"
      = .ok ⟨.dryRunMsg, false, ["export THEME=solarized-dark\n"], false⟩ := by
  have h := C6_dry_run_no_write
    ⟨"t", "env.sh", "export THEME={theme}", "solarized-light",
      "solarized-dark", "", true⟩
    ["export THEME=solarized-dark\n"] "light"
    ⟨true, false, Int.ofNat 0, some "export THEME=solarized-light\n"⟩
    rfl
    (by simp +decide [App.has_changes, App.determine_next_theme, App.get_mode,
      find, findLoop, compileQuery, themeTok, leadsWith, hasSub, searchToks,
      matchToks, tryG, nonspaceRunLen, pySpace, strReplace])
    rfl
  simpa using h

/-! # Claim C10 -/

/-- C10 counterexample: the captured value is the literal mode token
`light` and the configured light value is empty; `has_changes` raises
`ThemeModeError` instead of returning `False`, and `update` propagates the
exception instead of quietly performing no write. -/
theorem C10_mode_token_cex :
    App.has_changes ⟨"n", "f", "q {theme}", "", "x", "", false⟩
        ["q light\n"] "light" = .error .themeModeError ∧
    App.update ⟨"n", "f", "q {theme}", "", "x", "", false⟩
        ["q light\n"] "light" = .error .themeModeError := by
  constructor <;>
    simp +decide [App.update, App.has_changes, App.determine_next_theme,
      App.get_mode, find, findLoop, compileQuery, themeTok, leadsWith, hasSub,
      searchToks, matchToks, tryG, nonspaceRunLen, pySpace]

/-- C10 amended: provided the mode's configured value is nonempty, when the
value captured from the matched line is the literal mode token itself,
`has_changes` returns `False` and `update` performs no write, even when the
configured value differs from the captured value. -/
theorem C10_mode_token_amended (a : App) (fl : List String) (mode : String)
    (idx : Nat) (tm : String)
    (hfind : find a.query fl = (Int.ofNat idx, mode))
    (htm : a.get_mode mode = some tm) (htm' : tm ≠ "") :
    ∃ nt, a.has_changes fl mode = .ok ⟨false, false, Int.ofNat idx, some nt⟩ ∧
      a.update fl mode = .ok ⟨.noChanges, false, fl, false⟩ := by
  obtain ⟨nt, hhc⟩ := hc_of_capture_eq_mode a fl mode idx tm hfind htm htm'
  refine ⟨nt, hhc, ?_⟩
  simp [App.update, hhc]

/-- Witness for C10 (amended): configured light value `lightval` differs
from the captured token `light`; no write happens. -/
theorem C10_mode_token_amended_witness :
    App.update ⟨"n", "f", "q {theme}", "lightval", "darkval", "", false⟩
        ["q light\n"] "light"
      = .ok ⟨.noChanges, false, ["q light\n"], false⟩ := by
  obtain ⟨nt, h1, h2⟩ := C10_mode_token_amended
    ⟨"n", "f", "q {theme}", "lightval", "darkval", "", false⟩
    ["q light\n"] "light" 0 "lightval"
    (by simp +decide [find, findLoop, compileQuery, themeTok, leadsWith,
      hasSub, searchToks, matchToks, tryG, nonspaceRunLen, pySpace])
    (by decide) (by decide)
  exact h2

/-! # Claim C4 -/

/-- C4 counterexample: a valid application (all fields nonempty, query with
placeholder, existing matching file) where a successful write is not
idempotent: re-running `has_changes` with the same mode still reports a
change, because the greedy capture on the rewritten line differs from the
inserted value. -/
theorem C4_roundtrip_cex :
    App.update ⟨"n", "f", "Qx{theme}", "xq", "d", "", false⟩
        ["Qb Qxb\n"] "light"
      = .ok ⟨.applied, true, ["Qxq Qxxq\n"], false⟩ ∧
    App.has_changes ⟨"n", "f", "Qx{theme}", "xq", "d", "", false⟩
        ["Qxq Qxxq\n"] "light"
      = .ok ⟨true, false, Int.ofNat 0, some "Qxxq Qxxxq\n"⟩ := by
  constructor <;>
    simp +decide [App.update, App.has_changes, App.determine_next_theme,
      App.get_mode, find, findLoop, compileQuery, themeTok, leadsWith, hasSub,
      searchToks, matchToks, tryG, nonspaceRunLen, pySpace, strReplace]

/-- C4 amended: after an `update(mode)` that wrote the file, re-running
`has_changes(mode)` on the written file returns `False` provided the matcher
on the written file captures the mode's configured value or the literal mode
token; unconditional round-trip idempotence fails (see the
counterexample). -/
theorem C4_roundtrip_amended (a : App) (fl : List String) (mode : String)
    (r : UpdResult) (hupd : a.update fl mode = .ok r) (hw : r.wrote = true)
    (idx : Nat) (v : String)
    (hfind : find a.query r.fileLines = (Int.ofNat idx, v))
    (hv : a.get_mode mode = some v ∨ v = mode) :
    ∃ hc : HCOut, a.has_changes r.fileLines mode = .ok hc ∧
      hc.changed = false := by
  rcases hv with hv | hv
  · exact ⟨_, hc_of_capture_eq_target a r.fileLines mode idx v hfind hv, rfl⟩
  · subst hv
    obtain ⟨hc0, hhc0, hch0, hdr, nt, hnt, hne, hr⟩ :=
      update_wrote_inv a fl v r hupd hw
    obtain ⟨idx0, v0, nt0, hf0, hdet0, hceq0, hnt0, hvm0, hdiff0⟩ :=
      has_changes_changed_inv a fl v hc0 hhc0 hch0
    obtain ⟨tm, htm, htm', hnteq⟩ := determine_ok_inv _ _ _ _ _ _ hdet0
    obtain ⟨nt', hhc'⟩ :=
      hc_of_capture_eq_mode a r.fileLines v idx tm hfind htm htm'
    exact ⟨_, hhc', rfl⟩

/-- Witness for C4 (amended): the `export THEME` scenario write, whose
recheck captures exactly the mode's configured value. -/
theorem C4_roundtrip_amended_witness :
    ∃ hc : HCOut,
      App.has_changes ⟨"t", "env.sh", "export THEME={theme}",
          "solarized-light", "solarized-dark", "", false⟩
        ["export THEME=solarized-light\n"] "light" = .ok hc ∧
      hc.changed = false := by
  have h := C4_roundtrip_amended
    ⟨"t", "env.sh", "export THEME={theme}", "solarized-light",
      "solarized-dark", "", false⟩
    ["export THEME=solarized-dark\n"] "light"
    ⟨.applied, true, ["export THEME=solarized-light\n"], false⟩
    (by simp +decide [App.update, App.has_changes, App.determine_next_theme,
      App.get_mode, find, findLoop, compileQuery, themeTok, leadsWith, hasSub,
      searchToks, matchToks, tryG, nonspaceRunLen, pySpace, strReplace])
    rfl 0 "solarized-light"
    (by simp +decide [find, findLoop, compileQuery, themeTok, leadsWith,
      hasSub, searchToks, matchToks, tryG, nonspaceRunLen, pySpace])
    (Or.inl (by decide))
  exact h

/-! # Claim C9 -/

/-- C9: on identical inputs the diff operation returns the original text
unchanged, with no diff markers. -/
theorem C9_differ_identity (x : String) : Differ.changes x x = x := by
  simp [Differ.changes]

/-! # Claim C7 -/

/-- C7 (code-bug evidence): a wallpaper record that is invalid because its
`cmd` field is empty, with a `random` path that does not exist, aborts the
whole theme run with `FileNotFoundError`: `Wallpaper.set` evaluates
`self.randx()` eagerly as the fallback argument of `get`, before `apply`
checks the record's error flag.  The run had one pending update and one
pending restart; neither the restart nor the summary is reached. -/
theorem C7_wallpaper_abort :
    process_theme
      { entries := [⟨⟨"test", "env.sh", "export THEME={theme}",
          "solarized-light", "solarized-dark", "", false⟩, false,
          ["export THEME=solarized-dark\n"]⟩]
        cmds := []
        wallpaper := some (Wallpaper.new "d.jpg" "l.jpg" "/nonexistent" "" false)
        wallInfo := ⟨false, false, [], fun _ => true⟩
        restart := ["panelbar"]
        sysDryRun := false }
      "dark" = .error .fileNotFound := by
  simp +decide [process_theme, run_apps, process_app, handle_theme_updates,
    Wallpaper.set, Wallpaper.randx, Wallpaper.new, Wallpaper.apply,
    Wallpaper.get, App.update, App.has_changes, App.determine_next_theme,
    App.get_mode, find, findLoop, compileQuery, themeTok, leadsWith, hasSub,
    searchToks, matchToks, tryG, nonspaceRunLen, pySpace, strReplace, loadAll,
    countErrors, SysOps.restart, Cmd.run]

/-! # Claim C1 -/

/-- C1 counterexample: a run with zero updates (its only application is
invalid) still applies the wallpaper — the wallpaper step runs before the
update gate in `handle_theme_updates`. -/
theorem C1_zero_updates_cex :
    process_theme
      { entries := [⟨⟨"bad", "", "q {theme}", "l", "d", "", false⟩, true, []⟩]
        cmds := [⟨"dunst", "g.light", "g.dark", "dunst-ts -s", false⟩]
        wallpaper := some (Wallpaper.new "dark.jpg" "light.jpg" "walls" "feh"
          false)
        wallInfo := ⟨true, false, ["w.jpg"], fun _ => true⟩
        restart := ["panelbar", "compositor"]
        sysDryRun := false }
      "dark"
    = .ok ⟨0, 1, [Effect.wallpaperRun "feh dark.jpg"], [⟨true, false, []⟩]⟩ := by
  simp +decide [process_theme, run_apps, process_app, handle_theme_updates,
    Wallpaper.set, Wallpaper.randx, Wallpaper.new, Wallpaper.apply,
    Wallpaper.get, loadAll, countErrors, SysOps.restart, Cmd.run]

lemma wallpaper_set_effects (w : Wallpaper) (fs : WallInfo) (mode : String)
    (effs : List Effect) (h : w.set fs mode = .ok effs) :
    ∀ e ∈ effs, ∃ s, e = Effect.wallpaperRun s := by
  cases hr : w.randx fs with
  | error e =>
    simp only [Wallpaper.set, hr] at h
    cases h
  | ok fb =>
    simp only [Wallpaper.set, hr] at h
    rw [Wallpaper.apply] at h
    by_cases he : w.errorOccurred = true
    · rw [if_pos he] at h
      rw [← Except.ok.inj h]
      intro e he'
      cases he'
    · rw [if_neg he] at h
      by_cases hf : fs.isFile (w.get mode fb) = false
      · rw [if_pos hf] at h
        cases h
      · rw [if_neg hf] at h
        by_cases hd : w.dry_run = true
        · rw [if_pos hd] at h
          rw [← Except.ok.inj h]
          intro e he'
          cases he'
        · rw [if_neg hd] at h
          rw [← Except.ok.inj h]
          intro e he'
          rcases List.mem_singleton.mp he' with rfl
          exact ⟨_, rfl⟩

/-- C1 amended: if after processing all applications the update count is
zero, no mode-keyed action is executed, no bare command is executed, and no
process in the restart list is signaled; the wallpaper step, however, runs
before this gate and may still apply a wallpaper. -/
theorem C1_zero_updates_amended (env : RunEnv) (mode : String)
    (r : RunResult) (h : process_theme env mode = .ok r)
    (hu : r.updates = 0) :
    (∀ s, Effect.modeActionRun s ∉ r.effects) ∧
    (∀ s, Effect.bareCmdRun s ∉ r.effects) ∧
    (∀ p, Effect.signal p ∉ r.effects) := by
  cases hra : run_apps mode env.entries with
  | error e =>
    simp only [process_theme, hra] at h
    cases h
  | ok t =>
    obtain ⟨u, outs, cs⟩ := t
    simp only [process_theme, hra] at h
    cases hh : handle_theme_updates env u cs mode with
    | error e =>
      simp only [hh] at h
      cases h
    | ok effs =>
      simp only [hh] at h
      have hr : r = ⟨u, countErrors outs, effs, outs⟩ := (Except.ok.inj h).symm
      subst hr
      have hu0 : u = 0 := hu
      subst hu0
      have heffs : ∀ e ∈ effs, ∃ s, e = Effect.wallpaperRun s := by
        cases hw : env.wallpaper with
        | none =>
          simp only [handle_theme_updates, hw, if_pos rfl] at hh
          rw [← Except.ok.inj hh]
          intro e he
          cases he
        | some w =>
          cases hws : w.set env.wallInfo mode with
          | error e =>
            simp only [handle_theme_updates, hw, hws] at hh
            cases hh
          | ok wEff =>
            simp only [handle_theme_updates, hw, hws, if_pos rfl] at hh
            rw [← Except.ok.inj hh]
            exact wallpaper_set_effects w env.wallInfo mode wEff hws
      refine ⟨?_, ?_, ?_⟩ <;> intro s hs <;>
        obtain ⟨s', hs'⟩ := heffs _ hs <;> cases hs'

/-- Witness for C1 (amended): a zero-update run with a mode-keyed action, a
bare command and a restart list produces none of those effects. -/
theorem C1_zero_updates_amended_witness :
    (∀ s, Effect.modeActionRun s ∉
      (RunResult.mk 0 1 [] [⟨true, false, []⟩]).effects) ∧
    (∀ s, Effect.bareCmdRun s ∉
      (RunResult.mk 0 1 [] [⟨true, false, []⟩]).effects) ∧
    (∀ p, Effect.signal p ∉
      (RunResult.mk 0 1 [] [⟨true, false, []⟩]).effects) := by
  have h := C1_zero_updates_amended
    { entries := [⟨⟨"bad", "", "q {theme}", "l", "d", "cmd-b", false⟩, true, []⟩]
      cmds := [⟨"dunst", "g.light", "g.dark", "dunst-ts -s", false⟩]
      wallpaper := none
      wallInfo := ⟨true, false, [], fun _ => true⟩
      restart := ["panelbar", "compositor"]
      sysDryRun := false }
    "dark" ⟨0, 1, [], [⟨true, false, []⟩]⟩
    (by simp +decide [process_theme, run_apps, process_app,
      handle_theme_updates, loadAll, countErrors, SysOps.restart, Cmd.run])
    rfl
  exact h

/-! # Claim C2 -/

/-- C2 counterexample: a run whose single application already carries the
target value: no file is written (`wrote = false` for every application,
and the file content is unchanged), yet the reported updated count is 1 —
`process_theme` counts every application processed without an error, not
only those whose file was written. -/
theorem C2_updated_count_cex :
    process_theme
      { entries := [⟨⟨"test", "env.sh", "export THEME={theme}",
          "solarized-light", "solarized-dark", "", false⟩, false,
          ["export THEME=solarized-light\n"]⟩]
        cmds := []
        wallpaper := none
        wallInfo := ⟨true, false, [], fun _ => false⟩
        restart := []
        sysDryRun := false }
      "light"
    = .ok ⟨1, 0, [],
        [⟨false, false, ["export THEME=solarized-light\n"]⟩]⟩ := by
  simp +decide [process_theme, run_apps, process_app, handle_theme_updates,
    App.update, App.has_changes, App.determine_next_theme, App.get_mode,
    find, findLoop, compileQuery, themeTok, leadsWith, hasSub, searchToks,
    matchToks, tryG, nonspaceRunLen, pySpace, strReplace, loadAll,
    countErrors, SysOps.restart, Cmd.run]

lemma run_apps_counts (mode : String) (entries : List AppEntry) (u : Nat)
    (outs : List AppOut) (cs : List Cmd)
    (h : run_apps mode entries = .ok (u, outs, cs)) :
    outs.length = entries.length ∧
    u = (outs.filter (fun o => !o.errorAfter)).length ∧
    countErrors outs = (outs.filter (fun o => o.errorAfter)).length ∧
    u + countErrors outs = entries.length := by
  induction entries generalizing u outs cs with
  | nil =>
    simp only [run_apps] at h
    have h' := Except.ok.inj h
    injection h' with h1 h23
    injection h23 with h2 h3
    subst h1
    subst h2
    simp [countErrors]
  | cons e es ih =>
    simp only [run_apps] at h
    cases hp : process_app e mode with
    | error err =>
      simp only [hp] at h
      cases h
    | ok o =>
      simp only [hp] at h
      cases hr : run_apps mode es with
      | error err =>
        simp only [hr] at h
        cases h
      | ok t =>
        obtain ⟨u', outs', cs'⟩ := t
        simp only [hr] at h
        obtain ⟨hl, he1, he2, he3⟩ := ih u' outs' cs' hr
        cases hb : o.errorAfter with
        | true =>
          rw [if_pos hb] at h
          have h' := Except.ok.inj h
          injection h' with h1 h23
          injection h23 with h2 h3
          subst h1
          subst h2
          refine ⟨by simp [hl], ?_, rfl, ?_⟩
          · simpa [List.filter_cons, hb] using he1
          · have hc : countErrors (o :: outs') = countErrors outs' + 1 := by
              simp [countErrors, List.filter_cons, hb]
            have hlen : (e :: es).length = es.length + 1 := rfl
            omega
        | false =>
          rw [if_neg (by simp [hb])] at h
          have h' := Except.ok.inj h
          injection h' with h1 h23
          injection h23 with h2 h3
          subst h1
          subst h2
          refine ⟨by simp [hl], ?_, rfl, ?_⟩
          · simp only [List.filter_cons, hb]
            simp only [Bool.not_false, if_pos]
            simp [he1]
          · have hc : countErrors (o :: outs') = countErrors outs' := by
              simp [countErrors, List.filter_cons, hb]
            have hlen : (e :: es).length = es.length + 1 := rfl
            omega

/-- C2 amended: the reported updated count equals the number of
applications processed without a validation or match error — an application
whose check found no pending change (no write occurred) still counts — and
the error count equals the number of applications whose validation or match
failed; together they partition the applications. -/
theorem C2_counts_amended (env : RunEnv) (mode : String) (r : RunResult)
    (h : process_theme env mode = .ok r) :
    r.outs.length = env.entries.length ∧
    r.updates = (r.outs.filter (fun o => !o.errorAfter)).length ∧
    r.errors = (r.outs.filter (fun o => o.errorAfter)).length ∧
    r.updates + r.errors = env.entries.length := by
  cases hra : run_apps mode env.entries with
  | error e =>
    simp only [process_theme, hra] at h
    cases h
  | ok t =>
    obtain ⟨u, outs, cs⟩ := t
    simp only [process_theme, hra] at h
    cases hh : handle_theme_updates env u cs mode with
    | error e =>
      simp only [hh] at h
      cases h
    | ok effs =>
      simp only [hh] at h
      have hr : r = ⟨u, countErrors outs, effs, outs⟩ := (Except.ok.inj h).symm
      subst hr
      exact run_apps_counts mode env.entries u outs cs hra

/-- Witness for C2 (amended): the spec scenario — one application whose
file holds the dark value, run with mode light: the file is rewritten to the
light value, the updated count is 1, the error count 0, and the restart
list is signaled. -/
theorem C2_counts_amended_witness :
    (RunResult.mk 1 0 [Effect.signal "panelbar", Effect.signal "compositor"]
        [⟨false, true, ["export THEME=solarized-light\n"]⟩]).outs.length = 1 ∧
    (RunResult.mk 1 0 [Effect.signal "panelbar", Effect.signal "compositor"]
        [⟨false, true, ["export THEME=solarized-light\n"]⟩]).updates
      = (([⟨false, true, ["export THEME=solarized-light\n"]⟩] : List AppOut).filter
          (fun o => !o.errorAfter)).length ∧
    (RunResult.mk 1 0 [Effect.signal "panelbar", Effect.signal "compositor"]
        [⟨false, true, ["export THEME=solarized-light\n"]⟩]).errors
      = (([⟨false, true, ["export THEME=solarized-light\n"]⟩] : List AppOut).filter
          (fun o => o.errorAfter)).length ∧
    (RunResult.mk 1 0 [Effect.signal "panelbar", Effect.signal "compositor"]
        [⟨false, true, ["export THEME=solarized-light\n"]⟩]).updates
      + (RunResult.mk 1 0 [Effect.signal "panelbar", Effect.signal "compositor"]
        [⟨false, true, ["export THEME=solarized-light\n"]⟩]).errors = 1 := by
  have h := C2_counts_amended
    { entries := [⟨⟨"test", "env.sh", "export THEME={theme}",
        "solarized-light", "solarized-dark", "", false⟩, false,
        ["export THEME=solarized-dark\n"]⟩]
      cmds := []
      wallpaper := none
      wallInfo := ⟨true, false, [], fun _ => false⟩
      restart := ["panelbar", "compositor"]
      sysDryRun := false }
    "light"
    ⟨1, 0, [Effect.signal "panelbar", Effect.signal "compositor"],
      [⟨false, true, ["export THEME=solarized-light\n"]⟩]⟩
    (by simp +decide [process_theme, run_apps, process_app,
      handle_theme_updates, App.update, App.has_changes,
      App.determine_next_theme, App.get_mode, find, findLoop, compileQuery,
      themeTok, leadsWith, hasSub, searchToks, matchToks, tryG,
      nonspaceRunLen, pySpace, strReplace, loadAll, countErrors,
      SysOps.restart, Cmd.run])
  exact h

/-! # Claim C8 -/

lemma parse_step_preserves_app (dry : Bool) (ps : ParsedApps)
    (nv : String × RawSection) (x : String × App) (hx : x ∈ ps.apps) :
    x ∈ (parse_step dry ps nv).apps := by
  rw [parse_step]
  by_cases h1 : nv.2.file = "" ∧ nv.2.query = "" ∧ nv.1 ≠ "wallpaper"
  · rw [if_pos h1]
    exact hx
  · rw [if_neg h1]
    by_cases h2 : nv.2.file = ""
    · rw [if_pos h2]
      exact hx
    · rw [if_neg h2]
      rw [register_app]
      by_cases h3 : (ps.apps.map Prod.fst).contains nv.1
      · rw [if_pos h3]
        exact hx
      · rw [if_neg h3]
        exact List.mem_append_left _ hx

lemma parse_step_preserves_cmd (dry : Bool) (ps : ParsedApps)
    (nv : String × RawSection) (m : ModeAction) (hm : m ∈ ps.cmds) :
    m ∈ (parse_step dry ps nv).cmds := by
  rw [parse_step]
  by_cases h1 : nv.2.file = "" ∧ nv.2.query = "" ∧ nv.1 ≠ "wallpaper"
  · rw [if_pos h1]
    exact List.mem_append_left _ hm
  · rw [if_neg h1]
    by_cases h2 : nv.2.file = ""
    · rw [if_pos h2]
      exact hm
    · rw [if_neg h2]
      rw [register_app]
      by_cases h3 : (ps.apps.map Prod.fst).contains nv.1
      · rw [if_pos h3]
        exact hm
      · rw [if_neg h3]
        exact hm

lemma foldl_preserves_app (dry : Bool) (l : List (String × RawSection))
    (ps : ParsedApps) (x : String × App) (hx : x ∈ ps.apps) :
    x ∈ (List.foldl (parse_step dry) ps l).apps := by
  induction l generalizing ps with
  | nil => exact hx
  | cons s l ih =>
    exact ih (parse_step dry ps s) (parse_step_preserves_app dry ps s x hx)

lemma foldl_preserves_cmd (dry : Bool) (l : List (String × RawSection))
    (ps : ParsedApps) (m : ModeAction) (hm : m ∈ ps.cmds) :
    m ∈ (List.foldl (parse_step dry) ps l).cmds := by
  induction l generalizing ps with
  | nil => exact hm
  | cons s l ih =>
    exact ih (parse_step dry ps s) (parse_step_preserves_cmd dry ps s m hm)

lemma parse_step_names (dry : Bool) (ps : ParsedApps)
    (nv : String × RawSection) (n : String)
    (hn : n ∈ (parse_step dry ps nv).apps.map Prod.fst) :
    n ∈ ps.apps.map Prod.fst ∨ n = nv.1 := by
  rw [parse_step] at hn
  by_cases h1 : nv.2.file = "" ∧ nv.2.query = "" ∧ nv.1 ≠ "wallpaper"
  · rw [if_pos h1] at hn
    exact Or.inl hn
  · rw [if_neg h1] at hn
    by_cases h2 : nv.2.file = ""
    · rw [if_pos h2] at hn
      exact Or.inl hn
    · rw [if_neg h2] at hn
      rw [register_app] at hn
      by_cases h3 : (ps.apps.map Prod.fst).contains nv.1
      · rw [if_pos h3] at hn
        exact Or.inl hn
      · rw [if_neg h3] at hn
        simp only [List.map_append, List.map_cons, List.map_nil] at hn
        rcases List.mem_append.mp hn with h | h
        · exact Or.inl h
        · right
          simpa using h

lemma parse_sections_aux (dry : Bool) :
    ∀ (sections : List (String × RawSection)) (ps : ParsedApps),
      (sections.map Prod.fst).Nodup →
      (∀ n ∈ ps.apps.map Prod.fst, n ∉ sections.map Prod.fst) →
      ∀ nv ∈ sections, nv.1 ≠ "wallpaper" →
        (nv.2.file ≠ "" →
          (nv.1, App.new nv.1 nv.2 dry)
            ∈ (List.foldl (parse_step dry) ps sections).apps) ∧
        (nv.2.file = "" → nv.2.query = "" →
          ModeAction.new nv.1 nv.2 dry
            ∈ (List.foldl (parse_step dry) ps sections).cmds) := by
  intro sections
  induction sections with
  | nil =>
    intro ps hnd hinv nv hnv
    cases hnv
  | cons s ss ih =>
    intro ps hnd hinv nv hnv hnw
    have hnd2 : (s.1 :: ss.map Prod.fst).Nodup := by
      simpa only [List.map_cons] using hnd
    have hnd' : (ss.map Prod.fst).Nodup := (List.nodup_cons.mp hnd2).2
    have hs1 : s.1 ∉ ss.map Prod.fst := (List.nodup_cons.mp hnd2).1
    rcases List.mem_cons.mp hnv with rfl | hmem
    · constructor
      · intro hfile
        have hreg : (nv.1, App.new nv.1 nv.2 dry)
            ∈ (parse_step dry ps nv).apps := by
          rw [parse_step]
          rw [if_neg (by intro hx; exact hfile hx.1), if_neg hfile]
          rw [register_app]
          have hnot : ¬ (ps.apps.map Prod.fst).contains nv.1 := by
            intro hc
            have hin : nv.1 ∈ ps.apps.map Prod.fst := by
              simpa using hc
            exact hinv nv.1 hin (by simp)
          rw [if_neg hnot]
          exact List.mem_append_right _ (by simp)
        exact foldl_preserves_app dry ss _ _ hreg
      · intro hfile hquery
        have hreg : ModeAction.new nv.1 nv.2 dry
            ∈ (parse_step dry ps nv).cmds := by
          rw [parse_step]
          rw [if_pos ⟨hfile, hquery, hnw⟩]
          exact List.mem_append_right _ (by simp)
        exact foldl_preserves_cmd dry ss _ _ hreg
    · refine ih (parse_step dry ps s) hnd' ?_ nv hmem hnw
      intro n hn hns
      rcases parse_step_names dry ps s n hn with h | h
      · exact hinv n h (by simp [hns])
      · subst h
        exact hs1 hns

/-- C8: in the dispatch loop of `parse_apps`, every section other than
`wallpaper` with nonempty `file` and `query` values is registered as an
application under its section name, and every such section with both values
empty becomes a mode-keyed action; neither shape is dropped.  (Section names
of a configparser document are unique.) -/
theorem C8_parse_dispatch (sections : List (String × RawSection)) (dry : Bool)
    (hnd : (sections.map Prod.fst).Nodup) :
    ∀ nv ∈ sections, nv.1 ≠ "wallpaper" →
      (nv.2.file ≠ "" → nv.2.query ≠ "" →
        (nv.1, App.new nv.1 nv.2 dry) ∈ (parse_sections sections dry).apps) ∧
      (nv.2.file = "" → nv.2.query = "" →
        ModeAction.new nv.1 nv.2 dry ∈ (parse_sections sections dry).cmds) := by
  intro nv hnv hnw
  have h := parse_sections_aux dry sections ⟨[], []⟩ hnd
    (by intro n hn; cases hn) nv hnv hnw
  exact ⟨fun hf _ => h.1 hf, h.2⟩

/-- Witness for C8: a two-section document; the section with `file` and
`query` becomes an application, the section with neither becomes a
mode-keyed action. -/
theorem C8_parse_dispatch_witness :
    ("app1", App.new "app1" ⟨"f.conf", "q {theme}", "l", "d", "c"⟩ false)
      ∈ (parse_sections [("app1", ⟨"f.conf", "q {theme}", "l", "d", "c"⟩),
          ("dunst", ⟨"", "", "g.light", "g.dark", "dunst-ts -s"⟩)] false).apps ∧
    ModeAction.new "dunst" ⟨"", "", "g.light", "g.dark", "dunst-ts -s"⟩ false
      ∈ (parse_sections [("app1", ⟨"f.conf", "q {theme}", "l", "d", "c"⟩),
          ("dunst", ⟨"", "", "g.light", "g.dark", "dunst-ts -s"⟩)] false).cmds := by
  constructor
  · exact (C8_parse_dispatch
      [("app1", ⟨"f.conf", "q {theme}", "l", "d", "c"⟩),
        ("dunst", ⟨"", "", "g.light", "g.dark", "dunst-ts -s"⟩)] false
      (by decide)
      ("app1", ⟨"f.conf", "q {theme}", "l", "d", "c"⟩)
      (by simp) (by decide)).1 (by decide) (by decide)
  · exact (C8_parse_dispatch
      [("app1", ⟨"f.conf", "q {theme}", "l", "d", "c"⟩),
        ("dunst", ⟨"", "", "g.light", "g.dark", "dunst-ts -s"⟩)] false
      (by decide)
      ("dunst", ⟨"", "", "g.light", "g.dark", "dunst-ts -s"⟩)
      (by simp) (by decide)).2 rfl rfl

end pythemes
